import Mathlib

/-!
Verification of the PyRelFit relative-fitness pipeline (pyrelfit.py).

The embedding models the three pipeline stages over exact rationals:
the Partitioner task (filter_split_unit), the Pair Merge-Joiner
(process_pair), the Max Aggregator (list_to_dict_max) and the
Normalizer (normalize_file).  Python float division by the float 0.0
raises ZeroDivisionError; this is modelled by Option / Except error
values.  File contents are modelled as lists of typed rows.
-/

/-- One row of a Partitioner bucket file: position, reference base,
alternate base, alternate-allele count and total called alleles,
as written by filter_split_unit. -/
structure BucketRow where
  pos : Nat
  ref : String
  alt : String
  altCount : Nat
  totalAlleles : Nat
deriving DecidableEq

/-- One data row of an unnormalized or normalized result file
(columns Pos, Ref, Alt, RF). -/
structure OutRow where
  pos : Nat
  ref : String
  alt : String
  w : ℚ
deriving DecidableEq

/-- Allele frequency of the first generation of a pair:
Python `f1 = ac1 / total1 if total1 else 0`. -/
def freq1 (r : BucketRow) : ℚ :=
  if r.totalAlleles = 0 then 0 else (r.altCount : ℚ) / (r.totalAlleles : ℚ)

/-- Allele frequency of the second generation of a pair, with the
pseudo-frequency 1e-8 substituted when no alleles were called:
Python `f2 = ac2 / total2 if total2 and total2 != 0 else 1e-8`. -/
def freq2 (r : BucketRow) : ℚ :=
  if r.totalAlleles = 0 then 1 / 100000000 else (r.altCount : ℚ) / (r.totalAlleles : ℚ)

/-- Weight computation for one aligned record pair, from process_pair:
`w = (f2 ** 2) / (2 * f1 ** 2 - f1 * f2 ** 2) if f1 ... else 0`.
`none` models the ZeroDivisionError Python raises when the division
denominator is the float 0.0 (there is no clamping in the source). -/
def computeW (r1 r2 : BucketRow) : Option ℚ :=
  if freq1 r1 = 0 then some 0
  else if 2 * freq1 r1 ^ 2 - freq1 r1 * freq2 r2 ^ 2 = 0 then none
  else some (freq2 r2 ^ 2 / (2 * freq1 r1 ^ 2 - freq1 r1 * freq2 r2 ^ 2))

/-- The row loop of process_pair over the zipped record pairs, threading
the running maximum `max_w` (initialised to 0.0 by the caller).  An
uncaught ZeroDivisionError aborts the loop as an `Except.error`. -/
def process_rows : List (BucketRow × BucketRow) → ℚ → Except String (List OutRow × ℚ)
  | [], mw => Except.ok ([], mw)
  | (r1, r2) :: rest, mw =>
    match computeW r1 r2 with
    | none => Except.error "ZeroDivisionError"
    | some w =>
      match process_rows rest (max mw w) with
      | Except.error e => Except.error e
      | Except.ok (rows, m) => Except.ok (⟨r1.pos, r1.ref, r1.alt, w⟩ :: rows, m)

/-- process_pair: positional zip of the two bucket files
(`for (r1, r2) in zip(csv.reader(f1), csv.reader(f2))`), starting from
`max_w = 0.0`; on success it yields the written data rows and the
returned per-task maximum. -/
def process_pair (b1 b2 : List BucketRow) : Except String (List OutRow × ℚ) :=
  process_rows (b1.zip b2) 0

/-- Whether a character list begins with the slash character; models
Python startswith("/") (and, applied to the reversed list, endswith("/")). -/
def headIsSlash (cs : List Char) : Bool :=
  match cs with
  | c :: _ => c = '/'
  | [] => false

/-- Python str.strip(c): remove every leading and trailing occurrence of
the character c. -/
def stripChar (c : Char) (cs : List Char) : List Char :=
  ((cs.dropWhile (fun a => a = c)).reverse.dropWhile (fun a => a = c)).reverse

/-- Python str.split(c): split on every occurrence of c, keeping empty
pieces; the empty string yields one empty piece. -/
def splitChar (c : Char) : List Char → List (List Char)
  | [] => [[]]
  | a :: rest =>
    if a = c then [] :: splitChar c rest
    else
      match splitChar c rest with
      | [] => [[a]]
      | t :: ts => (a :: t) :: ts

/-- The loop `for i in range(0, len(parts), 2)` over the split parts,
collecting (generation id, regex pattern) pairs. -/
def pairUp : List (List Char) → List (List Char × List Char)
  | a :: b :: rest => (a, b) :: pairUp rest
  | _ => []

/-- parse_generations from the source, with the compiled-regex search
`regex.search(sample)` abstracted as the Boolean function `search`
(pattern characters, sample).  It raises ValueError when the string does
not start and end with a slash or when the split part list has odd
length; otherwise it maps each generation id to the samples its pattern
matches, with no check that any sample matched. -/
def parse_generations (search : List Char → String → Bool) (samples : List String)
    (generation_string : String) : Except String (List (String × List String)) :=
  if headIsSlash generation_string.toList = false ∨
      headIsSlash generation_string.toList.reverse = false then
    Except.error "Generations must be formatted as /<id>/<regex>/<id>/<regex>/..."
  else
    if (splitChar '/' (stripChar '/' generation_string.toList)).length % 2 ≠ 0 then
      Except.error "Invalid generation format: must be /<id>/<regex>/<id>/<regex>/..."
    else
      Except.ok ((pairUp (splitChar '/' (stripChar '/' generation_string.toList))).map
        (fun q => (String.mk q.1, samples.filter (fun s => search q.2 s))))

/-- The four outlier tiers of normalize_file. -/
inductive Tier where
  | gt_8
  | gt_6
  | gt_4
  | gt_2
deriving DecidableEq

/-- The if/elif chain of normalize_file assigning a normalized weight to
its outlier tier, evaluated highest tier first; none below the 0.2
threshold. -/
def tierOf (v : ℚ) : Option Tier :=
  if 8/10 < v then some Tier.gt_8
  else if 6/10 < v then some Tier.gt_6
  else if 4/10 < v then some Tier.gt_4
  else if 2/10 < v then some Tier.gt_2
  else none

/-- Content of one result file: the header row and the data rows. -/
structure ResultFile where
  header : List String
  rows : List OutRow
deriving DecidableEq

/-- One row rewrite of the Normalizer: `row[-1] = float(row[-1]) / global_max`. -/
def normalizeRow (gm : ℚ) (r : OutRow) : OutRow :=
  { r with w := r.w / gm }

/-- normalize_file: returns the resulting file content together with the
outlier tier groups (some only when outliers are enabled).  When the
global maximum is 0 or 1 the function returns immediately and the file is
left unchanged with no outlier files written; otherwise every data row's
weight is divided by the global maximum (written to a sibling temporary
file which then atomically replaces the original - the I/O discipline
itself is outside this pure model). -/
def normalize_file (outliersEnabled : Bool) (gm : ℚ) (f : ResultFile) :
    ResultFile × Option (Tier → List OutRow) :=
  if gm = 0 ∨ gm = 1 then (f, none)
  else
    (⟨f.header, f.rows.map (normalizeRow gm)⟩,
      if outliersEnabled then
        some (fun t => (f.rows.map (normalizeRow gm)).filter (fun r => tierOf r.w = some t))
      else none)

/-- Python dict lookup on the association list modelling max_dict. -/
def dictGet : List (String × ℚ) → String → Option ℚ
  | [], _ => none
  | p :: rest, k => if p.1 = k then some p.2 else dictGet rest k

/-- Python dict assignment `max_dict[key] = v` on the association list. -/
def dictSet : List (String × ℚ) → String → ℚ → List (String × ℚ)
  | [], k, v => [(k, v)]
  | p :: rest, k, v => if p.1 = k then (k, v) :: rest else p :: dictSet rest k v

/-- Python `max(max_dict.get(key, -float(inf)), value)`: with no previous
entry the default -inf makes the update keep value itself. -/
def maxOpt : Option ℚ → ℚ → ℚ
  | none, v => v
  | some m, v => max m v

/-- list_to_dict_max from the source: fold the (value, key) result list
into a dict keeping the running maximum per key. -/
def list_to_dict_max (lst : List (ℚ × String)) : List (String × ℚ) :=
  lst.foldl (fun d p => dictSet d p.2 (maxOpt (dictGet d p.2) p.1)) []

/-- The values carried by entries of a given key, in list order. -/
def valuesFor (k : String) (lst : List (ℚ × String)) : List ℚ :=
  (lst.filter (fun p => p.2 = k)).map (fun p => p.1)

/-- Maximum combination of two optional running maxima. -/
def omax : Option ℚ → Option ℚ → Option ℚ
  | none, o => o
  | some m, none => some m
  | some m, some n => some (max m n)

/-- The effect of the aggregation fold on one key, threading an optional
running maximum. -/
def optFold (k : String) : List (ℚ × String) → Option ℚ → Option ℚ
  | [], o => o
  | p :: rest, o => optFold k rest (if p.2 = k then some (maxOpt o p.1) else o)

/-- One decoded variant record as exposed by the variant source adapter. -/
structure Variant where
  pos : Nat
  ref : String
  alt : List String
  is_snp : Bool
  num_called : Nat
  num_het : Nat
  num_hom_alt : Nat

/-- compute_counts from the source: alternate-allele count and total
called alleles of one variant. -/
def compute_counts (v : Variant) : Nat × Nat :=
  (v.num_het + v.num_hom_alt * 2, v.num_called * 2)

/-- The bucket row the Partitioner loop writes for one variant, none when
the variant is filtered out (not a SNP or no alternate allele). -/
def variantToRow (v : Variant) : Option BucketRow :=
  if v.is_snp then
    match v.alt with
    | [] => none
    | a :: _ => some ⟨v.pos, v.ref, a, (compute_counts v).1, (compute_counts v).2⟩
  else none

/-- Body of the Partitioner task: the variant source may fail to open,
modelled by the Except input; on success the filtered rows are written. -/
def filter_split_body (src : Except String (List Variant)) :
    Except String (List BucketRow) :=
  src.map (fun vs => vs.filterMap variantToRow)

/-- Outcome of one pool task: a normal return value, or an exception
escaping the task body to the pool driver. -/
inductive TaskOutcome (α : Type) where
  | completed : α → TaskOutcome α
  | raised : String → TaskOutcome α
deriving DecidableEq

/-- filter_split_unit wraps its whole body in try/except: any exception
is printed to stderr and the task completes normally (with no rows
written on an open failure). -/
def filter_split_unit (src : Except String (List Variant)) :
    TaskOutcome (List BucketRow) :=
  match filter_split_body src with
  | Except.ok rows => TaskOutcome.completed rows
  | Except.error _ => TaskOutcome.completed []

/-- process_pair has no try/except around its body: an error raised by the
weight computation escapes the task to the pool driver. -/
def process_pair_task (b1 b2 : List BucketRow) : TaskOutcome (List OutRow × ℚ) :=
  match process_pair b1 b2 with
  | Except.ok r => TaskOutcome.completed r
  | Except.error e => TaskOutcome.raised e

/-- Structural description of a successful merge-join loop run: one output
row per consumed pair, row i built from pair i with position, reference and
alternate taken from the first stream and the weight from computeW. -/
theorem process_rows_ok_spec (pairs : List (BucketRow × BucketRow)) (mw : ℚ)
    (rows : List OutRow) (m : ℚ) (h : process_rows pairs mw = Except.ok (rows, m)) :
    rows.length = pairs.length ∧
    ∀ (i : Nat) (p : BucketRow × BucketRow), pairs[i]? = some p →
      ∃ w, computeW p.1 p.2 = some w ∧
        rows[i]? = some ⟨p.1.pos, p.1.ref, p.1.alt, w⟩ := by
  induction pairs generalizing mw rows m with
  | nil =>
    simp [process_rows] at h
    obtain ⟨h1, h2⟩ := h
    subst h1
    simp
  | cons p rest ih =>
    obtain ⟨r1, r2⟩ := p
    cases hcw : computeW r1 r2 with
    | none => simp [process_rows, hcw] at h
    | some w =>
      cases hrec : process_rows rest (max mw w) with
      | error e => simp [process_rows, hcw, hrec] at h
      | ok pr =>
        obtain ⟨rows0, m0⟩ := pr
        simp [process_rows, hcw, hrec] at h
        obtain ⟨h1, h2⟩ := h
        subst h1
        subst h2
        obtain ⟨hlen, hidx⟩ := ih _ _ _ hrec
        refine ⟨by simp [hlen], ?_⟩
        intro i q hq
        cases i with
        | zero =>
          simp only [List.getElem?_cons_zero, Option.some.injEq] at hq
          subst hq
          exact ⟨w, hcw, by simp⟩
        | succ j =>
          simp only [List.getElem?_cons_succ] at hq ⊢
          exact hidx j q hq

/-- The maximum threaded through the merge-join loop dominates the initial
accumulator and every written weight, and is attained by the accumulator or
by some written row. -/
theorem process_rows_max_spec (pairs : List (BucketRow × BucketRow)) (mw : ℚ)
    (rows : List OutRow) (m : ℚ) (h : process_rows pairs mw = Except.ok (rows, m)) :
    mw ≤ m ∧ (∀ r ∈ rows, r.w ≤ m) ∧ (m = mw ∨ ∃ r ∈ rows, r.w = m) := by
  induction pairs generalizing mw rows m with
  | nil =>
    simp [process_rows] at h
    obtain ⟨h1, h2⟩ := h
    subst h1
    subst h2
    simp
  | cons p rest ih =>
    obtain ⟨r1, r2⟩ := p
    cases hcw : computeW r1 r2 with
    | none => simp [process_rows, hcw] at h
    | some w =>
      cases hrec : process_rows rest (max mw w) with
      | error e => simp [process_rows, hcw, hrec] at h
      | ok pr =>
        obtain ⟨rows0, m0⟩ := pr
        simp [process_rows, hcw, hrec] at h
        obtain ⟨h1, h2⟩ := h
        subst h1
        subst h2
        obtain ⟨hle, hub, hat⟩ := ih _ _ _ hrec
        have hmw : mw ≤ m0 := le_trans (le_max_left mw w) hle
        have hw : w ≤ m0 := le_trans (le_max_right mw w) hle
        refine ⟨hmw, ?_, ?_⟩
        · intro r hr
          rcases List.mem_cons.mp hr with hr | hr
          · subst hr
            exact hw
          · exact hub r hr
        · rcases hat with hat | ⟨r, hr, hrw⟩
          · rcases max_choice mw w with hc | hc
            · exact Or.inl (hat.trans hc)
            · exact Or.inr ⟨⟨r1.pos, r1.ref, r1.alt, w⟩, by simp, by simp [hat, hc]⟩
          · exact Or.inr ⟨r, List.mem_cons_of_mem _ hr, hrw⟩

/-- C1: every weight written by the Pair Merge-Joiner follows the spec
formula.  With f1 = altCount1/totalAlleles1 (0 when totalAlleles1 = 0) and
f2 = altCount2/totalAlleles2 (pseudo-frequency 1e-8 when totalAlleles2 = 0),
the written weight of aligned pair i equals f2^2 / (2*f1^2 - f1*f2^2) when
f1 is nonzero and equals 0 when f1 = 0; in particular f1 = 0 forces w = 0
regardless of f2. -/
theorem c1_written_weight_formula (b1 b2 : List BucketRow) (rows : List OutRow) (m : ℚ)
    (h : process_pair b1 b2 = Except.ok (rows, m))
    (i : Nat) (r1 r2 : BucketRow) (row : OutRow)
    (h1 : b1[i]? = some r1) (h2 : b2[i]? = some r2) (hrow : rows[i]? = some row)
    (f1 f2 : ℚ)
    (hf1 : f1 = if r1.totalAlleles = 0 then 0 else (r1.altCount : ℚ) / (r1.totalAlleles : ℚ))
    (hf2 : f2 = if r2.totalAlleles = 0 then 1 / 100000000
                else (r2.altCount : ℚ) / (r2.totalAlleles : ℚ)) :
    (f1 = 0 → row.w = 0) ∧
    (f1 ≠ 0 → row.w = f2 ^ 2 / (2 * f1 ^ 2 - f1 * f2 ^ 2)) := by
  have hf1e : f1 = freq1 r1 := by rw [hf1, freq1]
  have hf2e : f2 = freq2 r2 := by rw [hf2, freq2]
  obtain ⟨hlen, hidx⟩ := process_rows_ok_spec _ _ _ _ h
  have hz : (b1.zip b2)[i]? = some (r1, r2) := by
    rw [List.getElem?_zip_eq_some]
    exact ⟨h1, h2⟩
  obtain ⟨w, hcw, hri⟩ := hidx i (r1, r2) hz
  have hroww : row = ⟨r1.pos, r1.ref, r1.alt, w⟩ := by
    rw [hrow] at hri
    exact (Option.some.inj hri.symm).symm
  subst hroww
  constructor
  · intro hz1
    rw [hf1e] at hz1
    simp [computeW, hz1] at hcw
    simpa using hcw.symm
  · intro hnz
    rw [hf1e] at hnz
    rw [computeW, if_neg hnz] at hcw
    rcases em (2 * freq1 r1 ^ 2 - freq1 r1 * freq2 r2 ^ 2 = 0) with hd | hd
    · simp [hd] at hcw
    · rw [if_neg hd] at hcw
      simp only [Option.some.injEq] at hcw
      simp [hf1e, hf2e, hcw.symm]

/-- Witness for C1 at the spec scenario bucket1 = [(100,A,T,2,10)],
bucket2 = [(100,A,T,4,8)]: f1 = 1/5, f2 = 1/2 and the written weight is
(1/2)^2 / (2*(1/5)^2 - (1/5)*(1/2)^2) = 25/3. -/
theorem c1_witness :
    process_pair [⟨100, "A", "T", 2, 10⟩] [⟨100, "A", "T", 4, 8⟩] =
      Except.ok ([⟨100, "A", "T", 25/3⟩], 25/3) ∧
    (25/3 : ℚ) = (1/2 : ℚ) ^ 2 / (2 * (1/5 : ℚ) ^ 2 - (1/5 : ℚ) * (1/2 : ℚ) ^ 2) := by
  have hpp : process_pair [⟨100, "A", "T", 2, 10⟩] [⟨100, "A", "T", 4, 8⟩] =
      Except.ok ([⟨100, "A", "T", 25/3⟩], 25/3) := by
    norm_num [process_pair, process_rows, computeW, freq1, freq2]
  have h := c1_written_weight_formula _ _ _ _ hpp 0
    ⟨100, "A", "T", 2, 10⟩ ⟨100, "A", "T", 4, 8⟩ ⟨100, "A", "T", 25/3⟩
    rfl rfl rfl (1/5) (1/2) (by norm_num) (by norm_num)
  exact ⟨hpp, by simpa using h.2 (by norm_num)⟩

/-- C2 amended: the source contains no clamping and no warning path.  When
f1 is nonzero and the denominator 2*f1^2 - f1*f2^2 equals 0, the division
in process_pair raises ZeroDivisionError, which is not caught inside the
task: the task aborts with the error and the row is not part of any
completed output. -/
theorem c2_zero_denominator_uncaught (r1 r2 : BucketRow) (t1 t2 : List BucketRow)
    (hf : freq1 r1 ≠ 0)
    (hd : 2 * freq1 r1 ^ 2 - freq1 r1 * freq2 r2 ^ 2 = 0) :
    process_pair (r1 :: t1) (r2 :: t2) = Except.error "ZeroDivisionError" := by
  rw [process_pair, List.zip_cons_cons]
  simp [process_rows, computeW, hf, hd]

/-- Witness for the amended C2: at (altCount1=1, totalAlleles1=2) and
(altCount2=2, totalAlleles2=2), f1 = 1/2 and f2 = 1 give a zero
denominator and the task errors. -/
theorem c2_witness :
    process_pair [⟨7, "C", "G", 1, 2⟩] [⟨7, "C", "G", 2, 2⟩] =
      Except.error "ZeroDivisionError" :=
  c2_zero_denominator_uncaught ⟨7, "C", "G", 1, 2⟩ ⟨7, "C", "G", 2, 2⟩ [] []
    (by norm_num [freq1]) (by norm_num [freq1, freq2])

/-- C2 counterexample: the claim says a zero denominator is clamped to 0,
counted as a warning, the row is still written and no such input aborts the
task.  At the concrete aligned pair below (f1 = 1/2, f2 = 1, denominator
2*(1/2)^2 - (1/2)*1 = 0) the merge-join task instead aborts with an
uncaught ZeroDivisionError and writes no completed output at all. -/
theorem c2_cex_no_clamping :
    process_pair [⟨100, "A", "T", 1, 2⟩] [⟨100, "A", "T", 2, 2⟩] =
      Except.error "ZeroDivisionError" ∧
    ¬ ∃ rows m, process_pair [⟨100, "A", "T", 1, 2⟩] [⟨100, "A", "T", 2, 2⟩] =
      Except.ok (rows, m) := by
  have h : process_pair [⟨100, "A", "T", 1, 2⟩] [⟨100, "A", "T", 2, 2⟩] =
      Except.error "ZeroDivisionError" := by
    norm_num [process_pair, process_rows, computeW, freq1, freq2]
  refine ⟨h, ?_⟩
  rintro ⟨rows, m, hok⟩
  rw [h] at hok
  exact Except.noConfusion hok

/-- C8 amended: on every run of the Pair Merge-Joiner that completes (no
weight computation raises), the join is a positional zip, not a keyed join:
output data row i is computed from record i of bucket 1 together with
record i of bucket 2, taking position, reference and alternate from bucket
1, and the number of output data rows equals the smaller of the two bucket
row counts. -/
theorem c8_positional_zip (b1 b2 : List BucketRow) (rows : List OutRow) (m : ℚ)
    (h : process_pair b1 b2 = Except.ok (rows, m)) :
    rows.length = min b1.length b2.length ∧
    ∀ (i : Nat) (r1 r2 : BucketRow), b1[i]? = some r1 → b2[i]? = some r2 →
      ∃ w, computeW r1 r2 = some w ∧ rows[i]? = some ⟨r1.pos, r1.ref, r1.alt, w⟩ := by
  obtain ⟨hlen, hidx⟩ := process_rows_ok_spec _ _ _ _ h
  refine ⟨by rw [hlen]; exact List.length_zip .., ?_⟩
  intro i r1 r2 h1 h2
  exact hidx i (r1, r2) (by rw [List.getElem?_zip_eq_some]; exact ⟨h1, h2⟩)

/-- Witness for the amended C8: bucket 1 has two records, bucket 2 has one,
the completed output has min 2 1 = 1 data row. -/
theorem c8_witness :
    process_pair [⟨10, "A", "C", 0, 2⟩, ⟨20, "G", "T", 1, 4⟩] [⟨10, "A", "C", 1, 2⟩] =
      Except.ok ([⟨10, "A", "C", 0⟩], 0) ∧ (1 = min 2 1) := by
  have hpp : process_pair [⟨10, "A", "C", 0, 2⟩, ⟨20, "G", "T", 1, 4⟩] [⟨10, "A", "C", 1, 2⟩] =
      Except.ok ([⟨10, "A", "C", 0⟩], 0) := by
    norm_num [process_pair, process_rows, computeW, freq1, freq2]
  refine ⟨hpp, ?_⟩
  exact (c8_positional_zip _ _ _ _ hpp).1

/-- C8 counterexample: as stated, the claim asserts the output row count
always equals the smaller bucket row count.  At the concrete one-row
buckets below the weight computation divides by zero (f1 = 1/2, f2 = 1),
the task aborts, and no completed output with min 1 1 = 1 data rows
exists. -/
theorem c8_cex_row_count :
    ¬ ∃ rows m, process_pair [⟨1, "A", "T", 2, 4⟩] [⟨1, "A", "T", 3, 3⟩] =
      Except.ok (rows, m) ∧ rows.length = min 1 1 := by
  have h : process_pair [⟨1, "A", "T", 2, 4⟩] [⟨1, "A", "T", 3, 3⟩] =
      Except.error "ZeroDivisionError" := by
    norm_num [process_pair, process_rows, computeW, freq1, freq2]
  rintro ⟨rows, m, hok, _⟩
  rw [h] at hok
  exact Except.noConfusion hok

/-- C10: the per-task maximum returned by the Pair Merge-Joiner starts at
0.0 and is only updated through max, so it is always nonnegative; a row
whose weight is negative is present in the written output as-is but never
equals the returned maximum, hence never becomes the normalization
scale. -/
theorem c10_nonnegative_task_max (b1 b2 : List BucketRow) (rows : List OutRow) (m : ℚ)
    (h : process_pair b1 b2 = Except.ok (rows, m)) :
    0 ≤ m ∧ ∀ r ∈ rows, r.w ≤ m ∧ (r.w < 0 → r.w ≠ m) := by
  obtain ⟨hle, hub, _⟩ := process_rows_max_spec _ _ _ _ h
  refine ⟨hle, ?_⟩
  intro r hr
  refine ⟨hub r hr, ?_⟩
  intro hneg heq
  exact absurd hle (not_le.mpr (heq ▸ hneg))

/-- Witness for C10: f1 = 1/10 and f2 = 4/5 give a negative denominator
-11/250 and the negative weight -160/11, which is written to the output
row while the returned task maximum stays 0. -/
theorem c10_witness :
    process_pair [⟨100, "A", "T", 1, 10⟩] [⟨100, "A", "T", 8, 10⟩] =
      Except.ok ([⟨100, "A", "T", -160/11⟩], 0) ∧
    (-160/11 : ℚ) < 0 ∧ (0 : ℚ) ≤ (0 : ℚ) ∧ (-160/11 : ℚ) ≠ 0 := by
  have hpp : process_pair [⟨100, "A", "T", 1, 10⟩] [⟨100, "A", "T", 8, 10⟩] =
      Except.ok ([⟨100, "A", "T", -160/11⟩], 0) := by
    norm_num [process_pair, process_rows, computeW, freq1, freq2]
  have h := c10_nonnegative_task_max _ _ _ _ hpp
  refine ⟨hpp, by norm_num, h.1, ?_⟩
  exact (h.2 ⟨100, "A", "T", -160/11⟩ (by simp)).2 (by norm_num)

/-- C3 amended: the Generation Resolver fails exactly on a malformed
specification (missing leading/trailing slash or an odd label/pattern part
list) and otherwise returns the mapping from each requested label to the
samples matched by its pattern; a label that matches zero samples is mapped
to the empty sample list rather than raising an error. -/
theorem c3_resolver_error_behaviour (search : List Char → String → Bool)
    (samples : List String) (g : String) :
    ((headIsSlash g.toList = false ∨ headIsSlash g.toList.reverse = false) →
      parse_generations search samples g =
        Except.error "Generations must be formatted as /<id>/<regex>/<id>/<regex>/...") ∧
    (headIsSlash g.toList = true → headIsSlash g.toList.reverse = true →
      (splitChar '/' (stripChar '/' g.toList)).length % 2 ≠ 0 →
      parse_generations search samples g =
        Except.error "Invalid generation format: must be /<id>/<regex>/<id>/<regex>/...") ∧
    (headIsSlash g.toList = true → headIsSlash g.toList.reverse = true →
      (splitChar '/' (stripChar '/' g.toList)).length % 2 = 0 →
      parse_generations search samples g =
        Except.ok ((pairUp (splitChar '/' (stripChar '/' g.toList))).map
          (fun q => (String.mk q.1, samples.filter (fun s => search q.2 s))))) := by
  refine ⟨?_, ?_, ?_⟩
  · intro hbad
    rw [parse_generations, if_pos hbad]
  · intro h1 h2 hodd
    rw [parse_generations, if_neg (by simp only [not_or, Bool.not_eq_false]; exact ⟨h1, h2⟩),
      if_pos hodd]
  · intro h1 h2 heven
    rw [parse_generations, if_neg (by simp only [not_or, Bool.not_eq_false]; exact ⟨h1, h2⟩),
      if_neg (by simp only [ne_eq, not_not]; exact heven)]

/-- Witness for the amended C3: the malformed specification /1/ (odd part
list) errors, and the well-formed specification /1/x/ over an empty sample
list succeeds mapping label 1 to zero samples. -/
theorem c3_witness :
    parse_generations (fun _ _ => false) [] "/1/" =
      Except.error "Invalid generation format: must be /<id>/<regex>/<id>/<regex>/..." ∧
    parse_generations (fun _ _ => false) [] "/1/x/" = Except.ok [("1", [])] := by
  constructor
  · exact (c3_resolver_error_behaviour (fun _ _ => false) [] "/1/").2.1
      (by decide) (by decide) (by decide)
  · have h := (c3_resolver_error_behaviour (fun _ _ => false) [] "/1/x/").2.2
      (by decide) (by decide) (by decide)
    rw [h]
    rfl

/-- C3 counterexample: the claim requires a ConfigurationError when a
requested generation label matches zero sample identifiers.  With sample
list [sampleA] and specification /1/xyz/ whose pattern matches nothing,
parse_generations instead succeeds and maps label 1 to the empty sample
list. -/
theorem c3_cex_zero_match_accepted :
    parse_generations (fun _ _ => false) ["sampleA"] "/1/xyz/" =
      Except.ok [("1", [])] := by
  rfl

/-- Dict lookup after one dict assignment. -/
theorem dictGet_dictSet (d : List (String × ℚ)) (k j : String) (v : ℚ) :
    dictGet (dictSet d k v) j = if k = j then some v else dictGet d j := by
  induction d with
  | nil =>
    simp [dictSet, dictGet]
  | cons p rest ih =>
    by_cases hp : p.1 = k
    · by_cases hj : k = j
      · simp [dictSet, dictGet, hp, hj]
      · have hpj : ¬ p.1 = j := by rw [hp]; exact hj
        simp [dictSet, dictGet, hp, hj, hpj]
    · by_cases hpj : p.1 = j
      · have hj : ¬ k = j := by rw [← hpj]; intro hc; exact hp hc.symm
        have hjk : ¬ j = k := fun hc => hj hc.symm
        simp [dictSet, dictGet, hp, hpj, hj, hjk]
      · simp [dictSet, dictGet, hp, hpj, ih]

/-- The aggregation fold restricted to one key, as an optFold starting
from the key's current entry. -/
theorem list_to_dict_max_foldl (lst : List (ℚ × String))
    (d : List (String × ℚ)) (k : String) :
    dictGet (lst.foldl (fun d p => dictSet d p.2 (maxOpt (dictGet d p.2) p.1)) d) k =
      optFold k lst (dictGet d k) := by
  induction lst generalizing d with
  | nil => rfl
  | cons p rest ih =>
    rw [List.foldl_cons, ih, optFold]
    by_cases hp : p.2 = k
    · rw [if_pos hp, dictGet_dictSet, hp, if_pos rfl]
    · rw [if_neg hp, dictGet_dictSet, if_neg hp]

/-- optFold started from an arbitrary accumulator factors through omax. -/
theorem optFold_omax (k : String) (lst : List (ℚ × String)) (o : Option ℚ) :
    optFold k lst o = omax o (optFold k lst none) := by
  induction lst generalizing o with
  | nil => cases o <;> simp [optFold, omax]
  | cons p rest ih =>
    by_cases hp : p.2 = k
    · rw [optFold, if_pos hp, ih ((some (maxOpt o p.1)))]
      conv_rhs => rw [optFold, if_pos hp, ih ((some (maxOpt none p.1)))]
      cases o with
      | none => simp [maxOpt, omax]
      | some m =>
        cases hX : optFold k rest none with
        | none => simp [maxOpt, omax]
        | some x => simp [maxOpt, omax, max_assoc]
    · rw [optFold, if_neg hp, ih o]
      conv_rhs => rw [optFold, if_neg hp]

/-- valuesFor unfolded over a cons cell. -/
theorem valuesFor_cons (k : String) (p : ℚ × String) (rest : List (ℚ × String)) :
    valuesFor k (p :: rest) =
      if p.2 = k then p.1 :: valuesFor k rest else valuesFor k rest := by
  by_cases hp : p.2 = k <;> simp [valuesFor, hp]

/-- A key whose fold result is empty has no entries. -/
theorem optFold_none_empty (k : String) (lst : List (ℚ × String))
    (h : optFold k lst none = none) : valuesFor k lst = [] := by
  induction lst with
  | nil => rfl
  | cons p rest ih =>
    rw [valuesFor_cons]
    by_cases hp : p.2 = k
    · rw [optFold, if_pos hp, optFold_omax] at h
      cases hX : optFold k rest none with
      | none => rw [hX] at h; exact absurd h (by simp [maxOpt, omax])
      | some x => rw [hX] at h; exact absurd h (by simp [maxOpt, omax])
    · rw [optFold, if_neg hp] at h
      rw [if_neg hp]
      exact ih h

/-- The fold result for a key is one of that key's values. -/
theorem optFold_none_mem (k : String) (lst : List (ℚ × String)) (m : ℚ)
    (h : optFold k lst none = some m) : m ∈ valuesFor k lst := by
  induction lst generalizing m with
  | nil => exact absurd h (by simp [optFold])
  | cons p rest ih =>
    rw [valuesFor_cons]
    by_cases hp : p.2 = k
    · rw [optFold, if_pos hp, optFold_omax] at h
      rw [if_pos hp]
      cases hX : optFold k rest none with
      | none =>
        rw [hX] at h
        simp only [maxOpt, omax, Option.some.injEq] at h
        simp [← h]
      | some x =>
        rw [hX] at h
        simp only [maxOpt, omax, Option.some.injEq] at h
        rcases max_choice p.1 x with hc | hc
        · rw [hc] at h
          simp [← h]
        · rw [hc] at h
          rw [← h]
          exact List.mem_cons_of_mem _ (ih x hX)
    · rw [optFold, if_neg hp] at h
      rw [if_neg hp]
      exact ih m h

/-- The fold result for a key bounds all of that key's values. -/
theorem optFold_none_ub (k : String) (lst : List (ℚ × String)) (v : ℚ)
    (hv : v ∈ valuesFor k lst) (m : ℚ) (h : optFold k lst none = some m) : v ≤ m := by
  induction lst generalizing m with
  | nil => exact absurd hv (by simp [valuesFor])
  | cons p rest ih =>
    rw [valuesFor_cons] at hv
    by_cases hp : p.2 = k
    · rw [if_pos hp] at hv
      rw [optFold, if_pos hp, optFold_omax] at h
      cases hX : optFold k rest none with
      | none =>
        rw [hX] at h
        simp only [maxOpt, omax, Option.some.injEq] at h
        have hrest := optFold_none_empty k rest hX
        rcases List.mem_cons.mp hv with hv | hv
        · rw [hv, h]
        · rw [hrest] at hv
          exact absurd hv (List.not_mem_nil v)
      | some x =>
        rw [hX] at h
        simp only [maxOpt, omax, Option.some.injEq] at h
        rcases List.mem_cons.mp hv with hv | hv
        · rw [hv, ← h]
          exact le_max_left p.1 x
        · exact le_trans (ih hv x hX) (h ▸ le_max_right p.1 x)
    · rw [if_neg hp] at hv
      rw [optFold, if_neg hp] at h
      exact ih hv m h

/-- C4: the Max Aggregator maps each pairIdentifier present in the result
list to the maximum maxW among that identifier's entries; and for a pair
whose tasks never produced a positive finite weight (every returned
per-task maximum is the initial 0), the global maximum is 0 and the
Normalizer receiving it leaves any file unchanged. -/
theorem c4_max_aggregator (lst : List (ℚ × String)) (k : String)
    (h : k ∈ lst.map Prod.snd) :
    ∃ m, dictGet (list_to_dict_max lst) k = some m ∧
      m ∈ valuesFor k lst ∧ (∀ v ∈ valuesFor k lst, v ≤ m) ∧
      ((∀ v ∈ valuesFor k lst, v = 0) → m = 0 ∧
        ∀ (b : Bool) (f : ResultFile), (normalize_file b m f).1 = f) := by
  have hget : dictGet (list_to_dict_max lst) k = optFold k lst none :=
    list_to_dict_max_foldl lst [] k
  obtain ⟨p, hp, hpk⟩ := List.mem_map.mp h
  have hne : valuesFor k lst ≠ [] := by
    intro hempty
    have hmem : p.1 ∈ valuesFor k lst :=
      List.mem_map.mpr ⟨p, List.mem_filter.mpr ⟨hp, by simp [hpk]⟩, rfl⟩
    rw [hempty] at hmem
    exact List.not_mem_nil p.1 hmem
  cases hopt : optFold k lst none with
  | none => exact absurd (optFold_none_empty k lst hopt) hne
  | some m =>
    refine ⟨m, by rw [hget, hopt], optFold_none_mem k lst m hopt,
      fun v hv => optFold_none_ub k lst v hv m hopt, ?_⟩
    intro hzero
    have hm0 : m = 0 := hzero m (optFold_none_mem k lst m hopt)
    refine ⟨hm0, ?_⟩
    intro b f
    rw [hm0, normalize_file, if_pos (Or.inl rfl)]

/-- Witness for C4 at the concrete result list
[(5, 1_3), (3, 1_3), (0, 2_3)]: pair 1_3 aggregates to its maximum 5,
and pair 2_3, whose only entry is 0, aggregates to 0 with the Normalizer
a no-op. -/
theorem c4_witness :
    (∃ m, dictGet (list_to_dict_max [((5 : ℚ), "1_3"), (3, "1_3"), (0, "2_3")]) "1_3" =
        some m ∧
      m ∈ valuesFor "1_3" [((5 : ℚ), "1_3"), (3, "1_3"), (0, "2_3")] ∧
      (∀ v ∈ valuesFor "1_3" [((5 : ℚ), "1_3"), (3, "1_3"), (0, "2_3")], v ≤ m)) ∧
    (∃ m, dictGet (list_to_dict_max [((5 : ℚ), "1_3"), (3, "1_3"), (0, "2_3")]) "2_3" =
        some m ∧ m = 0 ∧
      ∀ (b : Bool) (f : ResultFile), (normalize_file b m f).1 = f) := by
  constructor
  · obtain ⟨m, hm, hmem, hub, _⟩ :=
      c4_max_aggregator [((5 : ℚ), "1_3"), (3, "1_3"), (0, "2_3")] "1_3" (by decide)
    exact ⟨m, hm, hmem, hub⟩
  · obtain ⟨m, hm, hmem, hub, hz⟩ :=
      c4_max_aggregator [((5 : ℚ), "1_3"), (3, "1_3"), (0, "2_3")] "2_3" (by decide)
    have h0 : ∀ v ∈ valuesFor "2_3" [((5 : ℚ), "1_3"), (3, "1_3"), (0, "2_3")], v = 0 := by
      decide
    exact ⟨m, hm, (hz h0).1, (hz h0).2⟩

/-- C5: the Normalizer leaves the file content unchanged when the global
maximum is 0 or 1 (no-op, prior rows intact, no outlier side output);
otherwise it keeps the header and replaces every data row's weight by
weight / globalMax; and running it twice with globalMax 1 on an
already-normalized file equals running it once (both are the identity on
the content). -/
theorem c5_normalizer_contract (b : Bool) (gm : ℚ) (f : ResultFile) :
    ((gm = 0 ∨ gm = 1) → normalize_file b gm f = (f, none)) ∧
    (gm ≠ 0 → gm ≠ 1 →
      (normalize_file b gm f).1.header = f.header ∧
      (normalize_file b gm f).1.rows = f.rows.map (normalizeRow gm)) ∧
    (normalize_file b 1 ((normalize_file b 1 f).1)).1 = (normalize_file b 1 f).1 := by
  refine ⟨?_, ?_, ?_⟩
  · intro h01
    rw [normalize_file, if_pos h01]
  · intro h0 h1
    rw [normalize_file, if_neg (by rintro (hc | hc); exact h0 hc; exact h1 hc)]
    exact ⟨rfl, rfl⟩
  · rw [normalize_file, if_pos (Or.inr rfl), normalize_file, if_pos (Or.inr rfl)]

/-- Witness for C5: a no-op at globalMax 0, a rewrite dividing the single
weight 4 by globalMax 2, and idempotence at globalMax 1, all on concrete
files. -/
theorem c5_witness :
    normalize_file false 0 ⟨["Pos", "Ref", "Alt", "RF"], [⟨1, "A", "T", 4⟩]⟩ =
      (⟨["Pos", "Ref", "Alt", "RF"], [⟨1, "A", "T", 4⟩]⟩, none) ∧
    (normalize_file false 2 ⟨["Pos", "Ref", "Alt", "RF"], [⟨1, "A", "T", 4⟩]⟩).1.rows =
      [⟨1, "A", "T", 2⟩] ∧
    (normalize_file false 1
        ((normalize_file false 1 ⟨["Pos", "Ref", "Alt", "RF"], [⟨1, "A", "T", 4⟩]⟩).1)).1 =
      (normalize_file false 1 ⟨["Pos", "Ref", "Alt", "RF"], [⟨1, "A", "T", 4⟩]⟩).1 := by
  refine ⟨?_, ?_, ?_⟩
  · exact (c5_normalizer_contract false 0
      ⟨["Pos", "Ref", "Alt", "RF"], [⟨1, "A", "T", 4⟩]⟩).1 (Or.inl rfl)
  · have h := ((c5_normalizer_contract false 2
      ⟨["Pos", "Ref", "Alt", "RF"], [⟨1, "A", "T", 4⟩]⟩).2.1 (by norm_num) (by norm_num)).2
    rw [h]
    norm_num [normalizeRow]
  · exact (c5_normalizer_contract false 1
      ⟨["Pos", "Ref", "Alt", "RF"], [⟨1, "A", "T", 4⟩]⟩).2.2

/-- A normalized weight gets some tier exactly when it exceeds the 0.2
threshold. -/
theorem tierOf_some_iff (v : ℚ) : (tierOf v).isSome ↔ 2/10 < v := by
  rw [tierOf]
  split_ifs with ha hb hc hd <;> simp <;> linarith

/-- C6: for a generation-pair normalization with globalMax positive and
not 1, every output RF value equals the corresponding unnormalized weight
divided by globalMax (same row position), and when the row achieving the
pair maximum is among the normalized rows the maximum RF is exactly 1:
attained by some row and an upper bound for all rows. -/
theorem c6_rf_scaling (gm : ℚ) (f : ResultFile) (hpos : 0 < gm) (h1 : gm ≠ 1)
    (hub : ∀ r ∈ f.rows, r.w ≤ gm) (hach : ∃ r ∈ f.rows, r.w = gm) :
    (∀ (i : Nat) (r : OutRow), f.rows[i]? = some r →
      ((normalize_file false gm f).1.rows)[i]? = some (normalizeRow gm r)) ∧
    (∀ r ∈ (normalize_file false gm f).1.rows, r.w ≤ 1) ∧
    (∃ r ∈ (normalize_file false gm f).1.rows, r.w = 1) := by
  have h0 : gm ≠ 0 := ne_of_gt hpos
  have hnorm : (normalize_file false gm f).1.rows = f.rows.map (normalizeRow gm) := by
    rw [normalize_file, if_neg (by rintro (hc | hc); exact h0 hc; exact h1 hc)]
  refine ⟨?_, ?_, ?_⟩
  · intro i r hr
    rw [hnorm, List.getElem?_map, hr]
    rfl
  · intro r hr
    rw [hnorm] at hr
    obtain ⟨s, hs, hsr⟩ := List.mem_map.mp hr
    rw [← hsr]
    simpa [normalizeRow] using (div_le_one hpos).mpr (hub s hs)
  · obtain ⟨r, hr, hrw⟩ := hach
    refine ⟨normalizeRow gm r, ?_, ?_⟩
    · rw [hnorm]
      exact List.mem_map_of_mem _ hr
    · simp [normalizeRow, hrw, div_self h0]

/-- Witness for C6: globalMax 2 over two rows of weights 2 and 1; the
normalized rows are 1 and 1/2, the maximum RF 1 is attained by the first
row. -/
theorem c6_witness :
    (normalize_file false 2
        ⟨["Pos", "Ref", "Alt", "RF"], [⟨1, "A", "T", 2⟩, ⟨2, "C", "G", 1⟩]⟩).1.rows =
      [⟨1, "A", "T", 1⟩, ⟨2, "C", "G", 1/2⟩] ∧
    (∃ r ∈ (normalize_file false 2
        ⟨["Pos", "Ref", "Alt", "RF"], [⟨1, "A", "T", 2⟩, ⟨2, "C", "G", 1⟩]⟩).1.rows,
      r.w = 1) ∧
    (∀ r ∈ (normalize_file false 2
        ⟨["Pos", "Ref", "Alt", "RF"], [⟨1, "A", "T", 2⟩, ⟨2, "C", "G", 1⟩]⟩).1.rows,
      r.w ≤ 1) := by
  have h := c6_rf_scaling 2 ⟨["Pos", "Ref", "Alt", "RF"], [⟨1, "A", "T", 2⟩, ⟨2, "C", "G", 1⟩]⟩
    (by norm_num) (by norm_num)
    (by intro r hr; fin_cases hr <;> norm_num)
    ⟨⟨1, "A", "T", 2⟩, by simp, rfl⟩
  refine ⟨?_, h.2.2, h.2.1⟩
  have h0 := h.1 0 ⟨1, "A", "T", 2⟩ rfl
  have h1 := h.1 1 ⟨2, "C", "G", 1⟩ rfl
  norm_num [normalize_file, normalizeRow]

/-- C7: with outliers enabled and a global maximum that is neither 0 nor
1, every normalized row with weight above 2/10 belongs to exactly one of
the four tier groups and a row at or below 2/10 to none; the chain is
evaluated highest tier first (weight above 8/10 lands in gt_8); and
emitting the groups does not change the primary output content. -/
theorem c7_outlier_partition (gm : ℚ) (f : ResultFile) (h0 : gm ≠ 0) (h1 : gm ≠ 1) :
    ∃ groups, (normalize_file true gm f).2 = some groups ∧
      (∀ r ∈ (normalize_file true gm f).1.rows,
        ((2 : ℚ)/10 < r.w →
          (∃ t, r ∈ groups t) ∧ ∀ t u : Tier, r ∈ groups t → r ∈ groups u → t = u) ∧
        (r.w ≤ 2/10 → ∀ t : Tier, r ∉ groups t) ∧
        (8/10 < r.w → r ∈ groups Tier.gt_8)) ∧
      (normalize_file true gm f).1 = (normalize_file false gm f).1 := by
  have hcond : ¬ (gm = 0 ∨ gm = 1) := by
    rintro (hc | hc)
    · exact h0 hc
    · exact h1 hc
  refine ⟨fun t => (f.rows.map (normalizeRow gm)).filter (fun r => tierOf r.w = some t),
    ?_, ?_, ?_⟩
  · rw [normalize_file, if_neg hcond]
    simp
  · intro r hr
    rw [normalize_file, if_neg hcond] at hr
    refine ⟨?_, ?_, ?_⟩
    · intro h2
      constructor
      · obtain ⟨t, ht⟩ := Option.isSome_iff_exists.mp ((tierOf_some_iff r.w).mpr h2)
        exact ⟨t, List.mem_filter.mpr ⟨hr, by simp [ht]⟩⟩
      · intro t u hrt hru
        have ht := (List.mem_filter.mp hrt).2
        have hu := (List.mem_filter.mp hru).2
        simp only [decide_eq_true_eq] at ht hu
        rw [ht] at hu
        exact Option.some.inj hu
    · intro h2 t hrt
      have ht := (List.mem_filter.mp hrt).2
      simp only [decide_eq_true_eq] at ht
      have hs : (tierOf r.w).isSome := by rw [ht]; rfl
      have := (tierOf_some_iff r.w).mp hs
      linarith
    · intro h8
      refine List.mem_filter.mpr ⟨hr, ?_⟩
      simp [tierOf, h8]
  · rw [normalize_file, if_neg hcond, normalize_file, if_neg hcond]

/-- Witness for C7 at globalMax 2 over rows of weights 9/5, 1 and 1/5,
whose normalized values 9/10, 1/2 and 1/10 exercise the gt_8 tier, a
middle tier and the below-threshold case. -/
theorem c7_witness :
    (normalize_file true 2
        ⟨["Pos", "Ref", "Alt", "RF"],
          [⟨1, "A", "T", 9/5⟩, ⟨2, "C", "G", 1⟩, ⟨3, "G", "A", 1/5⟩]⟩).1.rows =
      [⟨1, "A", "T", 9/10⟩, ⟨2, "C", "G", 1/2⟩, ⟨3, "G", "A", 1/10⟩] ∧
    ∃ groups,
      (normalize_file true 2
        ⟨["Pos", "Ref", "Alt", "RF"],
          [⟨1, "A", "T", 9/5⟩, ⟨2, "C", "G", 1⟩, ⟨3, "G", "A", 1/5⟩]⟩).2 = some groups ∧
      (⟨1, "A", "T", 9/10⟩ : OutRow) ∈ groups Tier.gt_8 ∧
      (∀ t : Tier, (⟨3, "G", "A", 1/10⟩ : OutRow) ∉ groups t) := by
  have h := c7_outlier_partition 2
    ⟨["Pos", "Ref", "Alt", "RF"], [⟨1, "A", "T", 9/5⟩, ⟨2, "C", "G", 1⟩, ⟨3, "G", "A", 1/5⟩]⟩
    (by norm_num) (by norm_num)
  obtain ⟨groups, hg, hrows, hsame⟩ := h
  have hrows_eq : (normalize_file true 2
      ⟨["Pos", "Ref", "Alt", "RF"],
        [⟨1, "A", "T", 9/5⟩, ⟨2, "C", "G", 1⟩, ⟨3, "G", "A", 1/5⟩]⟩).1.rows =
      [⟨1, "A", "T", 9/10⟩, ⟨2, "C", "G", 1/2⟩, ⟨3, "G", "A", 1/10⟩] := by
    norm_num [normalize_file, normalizeRow]
  refine ⟨hrows_eq, groups, hg, ?_, ?_⟩
  · have hmem : (⟨1, "A", "T", (9:ℚ)/10⟩ : OutRow) ∈ (normalize_file true 2
        ⟨["Pos", "Ref", "Alt", "RF"],
          [⟨1, "A", "T", 9/5⟩, ⟨2, "C", "G", 1⟩, ⟨3, "G", "A", 1/5⟩]⟩).1.rows := by
      rw [hrows_eq]
      simp
    exact ((hrows _ hmem).2.2 (by norm_num))
  · have hmem : (⟨3, "G", "A", (1:ℚ)/10⟩ : OutRow) ∈ (normalize_file true 2
        ⟨["Pos", "Ref", "Alt", "RF"],
          [⟨1, "A", "T", 9/5⟩, ⟨2, "C", "G", 1⟩, ⟨3, "G", "A", 1/5⟩]⟩).1.rows := by
      rw [hrows_eq]
      simp
    exact ((hrows _ hmem).2.1 (by norm_num))

/-- C9 amended: only the Partitioner stage isolates task failure.  A
filter_split_unit task always completes (its body is wrapped in
try/except, so an exception is logged and not propagated), while a Pair
Merge-Joiner task has no such boundary: there are inputs on which
process_pair raises and the exception reaches the pool driver. -/
theorem c9_error_isolation_amended :
    (∀ src : Except String (List Variant),
      ∃ rows, filter_split_unit src = TaskOutcome.completed rows) ∧
    (∃ (b1 b2 : List BucketRow) (e : String),
      process_pair_task b1 b2 = TaskOutcome.raised e) := by
  constructor
  · intro src
    cases src with
    | ok vs => exact ⟨vs.filterMap variantToRow, rfl⟩
    | error e => exact ⟨[], rfl⟩
  · refine ⟨[⟨5, "G", "C", 2, 16⟩], [⟨5, "G", "C", 1, 2⟩], "ZeroDivisionError", ?_⟩
    have h : process_pair [⟨5, "G", "C", 2, 16⟩] [⟨5, "G", "C", 1, 2⟩] =
        Except.error "ZeroDivisionError" := by
      norm_num [process_pair, process_rows, computeW, freq1, freq2]
    rw [process_pair_task, h]

/-- C9 counterexample: the claim says every pipeline stage catches task
exceptions at the task boundary.  At the concrete bucket pair below
(f1 = 1/8, f2 = 1/2, zero denominator 2*(1/8)^2 - (1/8)*(1/2)^2 = 0) the
Pair Merge-Joiner task outcome is a raised exception, which the pool
driver re-raises, aborting the run. -/
theorem c9_cex_merge_task_raises :
    process_pair_task [⟨5, "G", "C", 2, 16⟩] [⟨5, "G", "C", 1, 2⟩] =
      TaskOutcome.raised "ZeroDivisionError" := by
  have h : process_pair [⟨5, "G", "C", 2, 16⟩] [⟨5, "G", "C", 1, 2⟩] =
      Except.error "ZeroDivisionError" := by
    norm_num [process_pair, process_rows, computeW, freq1, freq2]
  rw [process_pair_task, h]
